import Mathlib

/-!
Verification of `update_extract_import.py`.

The script reads `src/extract.js` as UTF-8 text, applies two literal
(non-pattern) substring replacements via Python `str.replace` — first the
import-line rule, then the usage-block rule — writes the result back to the
same path, and prints one success line.

Text is modelled as `List Char` (a Python `str` is a sequence of Unicode code
points).  `pyReplace` embeds Python `str.replace(old, new)`: it scans left to
right and replaces every non-overlapping occurrence of `old`, never rescanning
replacement text; when `old` is empty Python inserts `new` around every
character, which the first branch mirrors (the script never exercises it).
`countOccs pat s` counts the positions of `s` at which `pat` occurs (as a
plain substring, occurrences at distinct positions may overlap); `pat` is
absent from `s` iff `countOccs pat s = 0`.
-/

set_option maxRecDepth 1000000

namespace AutoPatch

/-- the single-quote character U+0027, kept out of string literals. -/
def sq : Char := Char.ofNat 39

/-- Scanner of Python `str.replace` for a nonempty pattern: at each position,
either the pattern matches and is consumed (the replacement is emitted and not
rescanned), or one character is copied.  The `Nat` argument is fuel, always at
least the length of the text, so each step consumes at least one character. -/
def replGo (pat rep : List Char) : Nat → List Char → List Char
  | 0, s => s
  | _ + 1, [] => []
  | fuel + 1, c :: rest =>
    if pat.isPrefixOf (c :: rest) then
      rep ++ replGo pat rep fuel (List.drop (pat.length - 1) rest)
    else
      c :: replGo pat rep fuel rest

/-- Python `s.replace(pat, rep)` with no count argument. -/
def pyReplace (pat rep s : List Char) : List Char :=
  if pat = [] then rep ++ s.foldr (fun c acc => c :: (rep ++ acc)) []
  else replGo pat rep s.length s

/-- first search literal: `import { searchConfig } from './search-config.js';` -/
def lit1 : List Char :=
  "import { searchConfig } from ".toList ++ [sq, '.', '/'] ++
    "search-config.js".toList ++ [sq, ';']

/-- first replacement literal: `import { getSearchConfig } from './search-config.js';` -/
def rep1 : List Char :=
  "import { getSearchConfig } from ".toList ++ [sq, '.', '/'] ++
    "search-config.js".toList ++ [sq, ';']

/-- second search literal: the two comment lines followed by the
`const searchParams = new URLSearchParams(searchConfig);` line. -/
def lit2 : List Char :=
  "    // Build the Autotrader search URL with parameters\n    // Based on actual Autotrader URL format from user".toList ++
    [sq] ++
    "s search\n    const searchParams = new URLSearchParams(searchConfig);".toList

/-- second replacement literal: the same block with
`const searchConfig = getSearchConfig();` inserted before the last line. -/
def rep2 : List Char :=
  "    // Build the Autotrader search URL with parameters\n    // Based on actual Autotrader URL format from user".toList ++
    [sq] ++
    "s search\n    const searchConfig = getSearchConfig();\n    const searchParams = new URLSearchParams(searchConfig);".toList

/-- the in-memory transformation of the script: the two `content.replace`
calls, in source order, the second applied unconditionally to the result of
the first. -/
def patch (content : List Char) : List Char :=
  pyReplace lit2 rep2 (pyReplace lit1 rep1 content)

/-- the single line the script prints on success. -/
def successMsg : List Char := "Updated extract.js to use getSearchConfig()".toList

/-- the ordered list of (search, replacement) rules, as the spec describes it. -/
def rules : List (List Char × List Char) := [(lit1, rep1), (lit2, rep2)]

/-- applying the replacement rules in order, each one a full
replace-all-occurrences step. -/
def applyRules (s : List Char) : List Char :=
  rules.foldl (fun t pr => pyReplace pr.1 pr.2 t) s

/-- observable outcome of one run: the file content written back (none when
the run dies before the write), the lines printed to stdout, and whether the
process exited normally (exit code 0). -/
structure RunResult where
  written : Option (List Char)
  stdout : List (List Char)
  exitOk : Bool

/-- one run of the script against the target path.  `none` models a missing
(or unreadable) `src/extract.js`: `open(..., 'r')` raises, the error is
uncaught, so nothing is written, nothing is printed, and the interpreter
exits with a non-zero status.  With readable content the script patches,
writes, and prints the success line. -/
def runPatcher : Option (List Char) → RunResult
  | none => ⟨none, [], false⟩
  | some content => ⟨some (patch content), [successMsg], true⟩

/-- a run in its full environment: the script consumes no command-line
arguments and no environment variables, so they are received and ignored,
exactly as in the source. -/
def runFull (_argv : List (List Char)) (_env : List (List Char × List Char))
    (file : Option (List Char)) : RunResult :=
  runPatcher file

/-- number of positions of `s` at which `pat` occurs as a substring. -/
def countOccs (pat : List Char) : List Char → Nat
  | [] => if pat.isPrefixOf [] then 1 else 0
  | c :: rest => (if pat.isPrefixOf (c :: rest) then 1 else 0) + countOccs pat rest

/-- `sideOK x y` holds when no proper nonempty suffix of `x` is
prefix-comparable with `y`; it rules out occurrences of `x` that start before
a `y` block and reach into it. -/
def sideOK (x y : List Char) : Bool :=
  (List.range x.length).all fun k =>
    decide (k = 0) || (!(x.drop k).isPrefixOf y && !y.isPrefixOf (x.drop k))

/-- `tailOK x y` holds when no suffix of `y` strictly shorter than `x` is a
prefix of `x`; it rules out occurrences of `x` that start inside a `y` block
and reach past its end. -/
def tailOK (x y : List Char) : Bool :=
  (List.range y.length).all fun p =>
    !decide (y.length - p < x.length) || !(y.drop p).isPrefixOf x

/-! ### Unfolding equations for the scanner -/

theorem replGo_zero (pat rep : List Char) (s : List Char) :
    replGo pat rep 0 s = s := rfl

theorem replGo_succ_nil (pat rep : List Char) (f : Nat) :
    replGo pat rep (f + 1) [] = [] := rfl

theorem replGo_succ_cons (pat rep : List Char) (f : Nat) (c : Char) (t : List Char) :
    replGo pat rep (f + 1) (c :: t) =
      if pat.isPrefixOf (c :: t) then
        rep ++ replGo pat rep f (List.drop (pat.length - 1) t)
      else
        c :: replGo pat rep f t := rfl

theorem replGo_congr (pat rep : List Char) :
    ∀ (f g : Nat) (s : List Char), s.length ≤ f → s.length ≤ g →
      replGo pat rep f s = replGo pat rep g s := by
  intro f
  induction f with
  | zero =>
    intro g s hf _
    have hs : s = [] := List.length_eq_zero.mp (Nat.le_zero.mp hf)
    subst hs
    cases g <;> rfl
  | succ f ih =>
    intro g s hf hg
    cases s with
    | nil => cases g <;> rfl
    | cons c t =>
      cases g with
      | zero => simp at hg
      | succ g =>
        rw [replGo_succ_cons, replGo_succ_cons]
        by_cases h : pat.isPrefixOf (c :: t)
        · rw [if_pos h, if_pos h]
          have hlen : (List.drop (pat.length - 1) t).length ≤ t.length := by
            rw [List.length_drop]; omega
          have hft : t.length ≤ f := by simpa using Nat.le_of_succ_le_succ hf
          have hgt : t.length ≤ g := by simpa using Nat.le_of_succ_le_succ hg
          rw [ih (g := g) _ (le_trans hlen hft) (le_trans hlen hgt)]
        · rw [if_neg h, if_neg h]
          have hft : t.length ≤ f := by simpa using Nat.le_of_succ_le_succ hf
          have hgt : t.length ≤ g := by simpa using Nat.le_of_succ_le_succ hg
          rw [ih (g := g) _ hft hgt]

theorem pyReplace_eq_replGo {pat : List Char} (rep : List Char) (hp : pat ≠ [])
    (s : List Char) : pyReplace pat rep s = replGo pat rep s.length s := by
  unfold pyReplace
  rw [if_neg hp]

theorem pyReplace_nil {pat : List Char} (rep : List Char) (hp : pat ≠ []) :
    pyReplace pat rep [] = [] := by
  rw [pyReplace_eq_replGo rep hp]
  rfl

theorem pyReplace_cons_neg {pat : List Char} (rep : List Char) (hp : pat ≠ [])
    {c : Char} {t : List Char} (h : ¬ pat <+: (c :: t)) :
    pyReplace pat rep (c :: t) = c :: pyReplace pat rep t := by
  have hb : ¬ pat.isPrefixOf (c :: t) = true := by
    intro hb; exact h ( List.isPrefixOf_iff_prefix.mp hb)
  rw [pyReplace_eq_replGo rep hp, pyReplace_eq_replGo rep hp, List.length_cons,
    replGo_succ_cons, if_neg hb]

theorem pyReplace_append_pat {pat : List Char} (rep : List Char) (hp : pat ≠ [])
    (u : List Char) : pyReplace pat rep (pat ++ u) = rep ++ pyReplace pat rep u := by
  cases pat with
  | nil => exact absurd rfl hp
  | cons a pr =>
    have hb : (a :: pr).isPrefixOf (a :: (pr ++ u)) = true := by
      apply List.isPrefixOf_iff_prefix.mpr
      exact ⟨u, by simp⟩
    rw [pyReplace_eq_replGo rep hp, pyReplace_eq_replGo rep hp]
    show replGo (a :: pr) rep (a :: (pr ++ u)).length (a :: (pr ++ u)) = _
    rw [List.length_cons, replGo_succ_cons, if_pos hb]
    have hdrop : List.drop ((a :: pr).length - 1) (pr ++ u) = u := by
      simp only [List.length_cons, Nat.add_sub_cancel]
      exact List.drop_left pr u
    rw [hdrop]
    have := replGo_congr (a :: pr) rep (pr ++ u).length u.length u
      (by simp) le_rfl
    rw [this]

/-! ### Occurrence counting -/

theorem countOccs_nil {pat : List Char} (hp : pat ≠ []) : countOccs pat [] = 0 := by
  cases pat with
  | nil => exact absurd rfl hp
  | cons a pr => simp [countOccs, List.isPrefixOf]

theorem countOccs_cons (pat : List Char) (c : Char) (t : List Char) :
    countOccs pat (c :: t) = (if pat <+: c :: t then 1 else 0) + countOccs pat t := by
  show (if pat.isPrefixOf (c :: t) then 1 else 0) + countOccs pat t = _
  congr 1
  by_cases h : pat <+: c :: t
  · rw [if_pos ( List.isPrefixOf_iff_prefix.mpr h), if_pos h]
  · rw [if_neg h, if_neg (fun hb => h ( List.isPrefixOf_iff_prefix.mp hb))]

theorem countOccs_pos_of_prefix_drop {x : List Char} :
    ∀ (t : List Char) (p : Nat), x <+: t.drop p → 0 < countOccs x t := by
  intro t
  induction t with
  | nil =>
    intro p h
    rw [List.drop_nil] at h
    have hx : x = [] := List.prefix_nil.mp h
    subst hx
    simp [countOccs, List.isPrefixOf]
  | cons c t ih =>
    intro p h
    cases p with
    | zero =>
      rw [List.drop_zero] at h
      rw [countOccs_cons, if_pos h]
      omega
    | succ p =>
      have := ih p h
      rw [countOccs_cons]
      omega

theorem exists_prefix_drop_of_pos {x : List Char} :
    ∀ t : List Char, 0 < countOccs x t → ∃ p, x <+: t.drop p := by
  intro t
  induction t with
  | nil =>
    intro h
    refine ⟨0, ?_⟩
    by_cases hx : x = []
    · subst hx; exact List.nil_prefix
    · rw [countOccs_nil hx] at h; omega
  | cons c t ih =>
    intro h
    by_cases hc : x <+: c :: t
    · exact ⟨0, by simpa using hc⟩
    · rw [countOccs_cons, if_neg hc] at h
      obtain ⟨p, hp⟩ := ih (by omega)
      exact ⟨p + 1, hp⟩

theorem two_le_countOccs {x : List Char} (hx : x ≠ []) :
    ∀ (t : List Char) (p q : Nat), p < q → x <+: t.drop p → x <+: t.drop q →
      2 ≤ countOccs x t := by
  intro t
  induction t with
  | nil =>
    intro p q _ h1 _
    rw [List.drop_nil] at h1
    exact absurd (List.prefix_nil.mp h1) hx
  | cons c t ih =>
    intro p q hpq h1 h2
    cases q with
    | zero => omega
    | succ q =>
      cases p with
      | zero =>
        rw [List.drop_zero] at h1
        have hpos : 0 < countOccs x t := countOccs_pos_of_prefix_drop t q h2
        rw [countOccs_cons, if_pos h1]
        omega
      | succ p =>
        have := ih p q (by omega) h1 h2
        rw [countOccs_cons]
        omega

theorem countOccs_le_append_right (x u w : List Char) :
    countOccs x w ≤ countOccs x (u ++ w) := by
  induction u with
  | nil => simp
  | cons c u ih =>
    rw [List.cons_append, countOccs_cons]
    omega

theorem countOccs_le_append_left {x : List Char} (hx : x ≠ []) (u w : List Char) :
    countOccs x u ≤ countOccs x (u ++ w) := by
  induction u with
  | nil => simp [countOccs_nil hx]
  | cons c u ih =>
    rw [List.cons_append, countOccs_cons, countOccs_cons]
    have hmono : (if x <+: c :: u then 1 else 0) ≤ (if x <+: c :: (u ++ w) then (1 : Nat) else 0) := by
      by_cases h : x <+: c :: u
      · rw [if_pos h, if_pos (h.trans ⟨w, by simp⟩)]
      · rw [if_neg h]; omega
    omega

theorem countOccs_append {x : List Char} (hx : x ≠ []) :
    ∀ (u w : List Char),
      (∀ p, p < u.length → x <+: (u.drop p ++ w) → x <+: u.drop p) →
      countOccs x (u ++ w) = countOccs x u + countOccs x w := by
  intro u
  induction u with
  | nil => intro w _; simp [countOccs_nil hx]
  | cons c u ih =>
    intro w h
    rw [List.cons_append, countOccs_cons, countOccs_cons (t := u)]
    have hite : (if x <+: c :: (u ++ w) then (1 : Nat) else 0) = if x <+: c :: u then 1 else 0 := by
      by_cases hc : x <+: c :: u
      · rw [if_pos hc, if_pos (hc.trans ⟨w, by simp⟩)]
      · rw [if_neg hc, if_neg]
        intro hcw
        exact hc (by simpa using h 0 (by simp) (by simpa using hcw))
    have htail := ih w (fun p hp hpre => h (p + 1) (by simpa using Nat.succ_lt_succ hp) hpre)
    omega

/-! ### Splitting a prefix of an append -/

theorem prefix_append_split {x u w : List Char} (h : x <+: u ++ w) :
    x <+: u ∨ (u <+: x ∧ x.drop u.length <+: w) := by
  obtain ⟨t, ht⟩ := h
  rcases le_or_lt x.length u.length with hle | hlt
  · left
    have hx : x = (u ++ w).take x.length := by
      rw [← ht, List.take_append_eq_append_take, Nat.sub_self, List.take_zero,
        List.append_nil, List.take_length]
    rw [hx, List.take_append_eq_append_take, Nat.sub_eq_zero_of_le hle,
      List.take_zero, List.append_nil]
    exact List.take_prefix _ _
  · right
    constructor
    · have hu : u = x.take u.length := by
        have h1 : (x ++ t).take u.length = x.take u.length ++ t.take (u.length - x.length) :=
          List.take_append_eq_append_take
        rw [Nat.sub_eq_zero_of_le (Nat.le_of_lt hlt), List.take_zero, List.append_nil] at h1
        rw [← h1, ht, List.take_left]
      rw [hu]
      exact List.take_prefix _ _
    · refine ⟨t, ?_⟩
      have h1 : (x ++ t).drop u.length = x.drop u.length ++ t.drop (u.length - x.length) :=
        List.drop_append_eq_append_drop
      rw [Nat.sub_eq_zero_of_le (Nat.le_of_lt hlt), List.drop_zero] at h1
      rw [← h1, ht, List.drop_left]

/-! ### The overlap side conditions -/

theorem sideOK_spec {x y : List Char} (h : sideOK x y = true) :
    ∀ k, 0 < k → k < x.length → ¬ (x.drop k <+: y) ∧ ¬ (y <+: x.drop k) := by
  intro k hk hklen
  have hm := List.all_eq_true.mp h k (List.mem_range.mpr hklen)
  simp only [Bool.or_eq_true, decide_eq_true_eq, Bool.and_eq_true, Bool.not_eq_true'] at hm
  rcases hm with hm | ⟨hm1, hm2⟩
  · omega
  · constructor
    · intro hc
      have hb : (x.drop k).isPrefixOf y = true := List.isPrefixOf_iff_prefix.mpr hc
      rw [hb] at hm1
      exact absurd hm1 (by simp)
    · intro hc
      have hb : y.isPrefixOf (x.drop k) = true := List.isPrefixOf_iff_prefix.mpr hc
      rw [hb] at hm2
      exact absurd hm2 (by simp)

theorem tailOK_spec {x y : List Char} (h : tailOK x y = true) :
    ∀ p, p < y.length → y.length - p < x.length → ¬ (y.drop p <+: x) := by
  intro p hp hshort hc
  have hm := List.all_eq_true.mp h p (List.mem_range.mpr hp)
  simp only [Bool.or_eq_true, Bool.not_eq_true', decide_eq_false_iff_not] at hm
  rcases hm with hm | hm
  · exact hm hshort
  · have hb : (y.drop p).isPrefixOf x = true := List.isPrefixOf_iff_prefix.mpr hc
    rw [hb] at hm
    exact absurd hm (by simp)

theorem spanFree_sideOK {x y : List Char} (hS : sideOK x y = true) (A w : List Char) :
    ∀ p, p < A.length → x <+: (A.drop p ++ (y ++ w)) → x <+: A.drop p := by
  intro p hp hpre
  rcases prefix_append_split hpre with h | ⟨h1, h2⟩
  · exact h
  · have hk1 : 0 < (A.drop p).length := by rw [List.length_drop]; omega
    have hk2 : (A.drop p).length ≤ x.length := h1.length_le
    rcases Nat.lt_or_ge (A.drop p).length x.length with hlt | hge
    · rcases prefix_append_split h2 with h3 | ⟨h3, _⟩
      · exact absurd h3 ((sideOK_spec hS _ hk1 hlt).1)
      · exact absurd h3 ((sideOK_spec hS _ hk1 hlt).2)
    · have heq := h1.eq_of_length (Nat.le_antisymm hk2 hge)
      rw [heq]

theorem spanFree_tailOK {x y : List Char} (hT : tailOK x y = true) (w : List Char) :
    ∀ p, p < y.length → x <+: (y.drop p ++ w) → x <+: y.drop p := by
  intro p hp hpre
  rcases prefix_append_split hpre with h | ⟨h1, _⟩
  · exact h
  · have hlen : (y.drop p).length ≤ x.length := h1.length_le
    rw [List.length_drop] at hlen
    rcases Nat.lt_or_ge (y.length - p) x.length with hlt | hge
    · exact absurd h1 (tailOK_spec hT p hp hlt)
    · have heq := h1.eq_of_length (by rw [List.length_drop]; omega)
      rw [heq]

theorem countOccs_append_tail {x y : List Char} (hx : x ≠ []) (hT : tailOK x y = true)
    (w : List Char) : countOccs x (y ++ w) = countOccs x y + countOccs x w :=
  countOccs_append hx y w (spanFree_tailOK hT w)

theorem count_around {x y : List Char} (hx : x ≠ []) (hS : sideOK x y = true)
    (hT : tailOK x y = true) (A B : List Char) :
    countOccs x (A ++ y ++ B) = countOccs x A + countOccs x y + countOccs x B := by
  rw [List.append_assoc, countOccs_append hx A (y ++ B) (spanFree_sideOK hS A B),
    countOccs_append_tail hx hT B]
  omega

/-! ### Absence and containment -/

theorem infix_iff_countOccs_pos (x t : List Char) : x <:+: t ↔ 0 < countOccs x t := by
  constructor
  · rintro ⟨u, v, huv⟩
    apply countOccs_pos_of_prefix_drop t u.length
    have : t.drop u.length = x ++ v := by
      rw [← huv, List.append_assoc, List.drop_left]
    rw [this]
    exact ⟨v, rfl⟩
  · intro hpos
    obtain ⟨p, hp⟩ := exists_prefix_drop_of_pos t hpos
    exact List.infix_iff_prefix_suffix.mpr ⟨t.drop p, hp, List.drop_suffix _ _⟩

theorem pyReplace_no_occ {pat : List Char} (rep : List Char) (hp : pat ≠ []) :
    ∀ s : List Char, countOccs pat s = 0 → pyReplace pat rep s = s := by
  intro s
  induction s with
  | nil => intro _; exact pyReplace_nil rep hp
  | cons c t ih =>
    intro h
    rw [countOccs_cons] at h
    have hnp : ¬ pat <+: c :: t := by
      intro hc; rw [if_pos hc] at h; omega
    rw [if_neg hnp] at h
    rw [pyReplace_cons_neg rep hp hnp, ih (by omega)]

/-! ### Structure of a replacement pass -/

theorem pyReplace_cases (pat rep : List Char) (hp : pat ≠ []) :
    ∀ (n : Nat) (s : List Char), s.length ≤ n →
      countOccs pat s = 0 ∨
      ∃ A B, s = A ++ pat ++ B ∧ (∀ p, p < A.length → ¬ pat <+: s.drop p) ∧
        pyReplace pat rep s = A ++ rep ++ pyReplace pat rep B := by
  intro n
  induction n with
  | zero =>
    intro s hs
    left
    have : s = [] := List.length_eq_zero.mp (Nat.le_zero.mp hs)
    subst this
    exact countOccs_nil hp
  | succ n ih =>
    intro s hs
    cases s with
    | nil => left; exact countOccs_nil hp
    | cons c t =>
      by_cases h : pat <+: c :: t
      · right
        obtain ⟨u, hu⟩ := h
        refine ⟨[], u, by simp [← hu], by simp, ?_⟩
        rw [← hu, pyReplace_append_pat rep hp, List.nil_append]
      · have htn : t.length ≤ n := by simpa using Nat.le_of_succ_le_succ hs
        rcases ih t htn with h0 | ⟨A, B, hAB, hleft, heq⟩
        · left
          rw [countOccs_cons, if_neg h, h0]
        · right
          refine ⟨c :: A, B, by simp [hAB], ?_, ?_⟩
          · intro p hp'
            cases p with
            | zero => simpa using h
            | succ p =>
              have := hleft p (by simpa using Nat.lt_of_succ_lt_succ hp')
              simpa using this
          · rw [pyReplace_cons_neg rep hp h, heq]
            simp

theorem countOccs_zero_of_leftmost {pat : List Char} (hp : pat ≠ []) (A tail : List Char)
    (hleft : ∀ p, p < A.length → ¬ pat <+: ((A ++ tail).drop p)) :
    countOccs pat A = 0 := by
  by_contra hne
  obtain ⟨p, hpre⟩ := exists_prefix_drop_of_pos A (Nat.pos_of_ne_zero hne)
  have hplen : p < A.length := by
    rcases Nat.lt_or_ge p A.length with h | h
    · exact h
    · rw [List.drop_eq_nil_of_le h] at hpre
      exact absurd (List.prefix_nil.mp hpre) hp
  apply hleft p hplen
  have hsplit : (A ++ tail).drop p = A.drop p ++ tail := by
    rw [List.drop_append_eq_append_drop, Nat.sub_eq_zero_of_le (Nat.le_of_lt hplen),
      List.drop_zero]
  rw [hsplit]
  exact hpre.trans ⟨tail, rfl⟩

theorem countOccs_pyReplace {x pat : List Char} (rep : List Char) (hx : x ≠ [])
    (hp : pat ≠ [])
    (hS1 : sideOK x pat = true) (hS2 : sideOK x rep = true)
    (hT1 : tailOK x pat = true) (hT2 : tailOK x rep = true)
    (hc : countOccs x pat = countOccs x rep) :
    ∀ (n : Nat) (s : List Char), s.length ≤ n →
      countOccs x (pyReplace pat rep s) = countOccs x s := by
  intro n
  induction n with
  | zero =>
    intro s hs
    have : s = [] := List.length_eq_zero.mp (Nat.le_zero.mp hs)
    subst this
    rw [pyReplace_nil rep hp]
  | succ n ih =>
    intro s hs
    rcases pyReplace_cases pat rep hp s.length s le_rfl with h0 | ⟨A, B, hAB, _, heq⟩
    · rw [pyReplace_no_occ rep hp s h0]
    · have hBlen : B.length ≤ n := by
        have hplen : 0 < pat.length := List.length_pos.mpr hp
        have : s.length = A.length + pat.length + B.length := by
          rw [hAB]; simp [List.length_append]; omega
        omega
      rw [heq, count_around hx hS2 hT2 A (pyReplace pat rep B), ih B hBlen,
        hAB, count_around hx hS1 hT1 A B, hc]

theorem countOccs_pyReplace_self {pat : List Char} (rep : List Char) (hp : pat ≠ [])
    (hS : sideOK pat rep = true) (hT : tailOK pat rep = true)
    (h0 : countOccs pat rep = 0) :
    ∀ (n : Nat) (s : List Char), s.length ≤ n →
      countOccs pat (pyReplace pat rep s) = 0 := by
  intro n
  induction n with
  | zero =>
    intro s hs
    have : s = [] := List.length_eq_zero.mp (Nat.le_zero.mp hs)
    subst this
    rw [pyReplace_nil rep hp]
    exact countOccs_nil hp
  | succ n ih =>
    intro s hs
    rcases pyReplace_cases pat rep hp s.length s le_rfl with hno | ⟨A, B, hAB, hleft, heq⟩
    · rw [pyReplace_no_occ rep hp s hno]
      exact hno
    · have hA : countOccs pat A = 0 := by
        apply countOccs_zero_of_leftmost hp A (pat ++ B)
        intro p hp'
        rw [← List.append_assoc, ← hAB]
        exact hleft p hp'
      have hBlen : B.length ≤ n := by
        have hplen : 0 < pat.length := List.length_pos.mpr hp
        have : s.length = A.length + pat.length + B.length := by
          rw [hAB]; simp [List.length_append]; omega
        omega
      rw [heq, count_around hp hS hT A (pyReplace pat rep B), hA, h0, ih B hBlen]

theorem length_le_pyReplace {pat : List Char} (rep : List Char) (hp : pat ≠ [])
    (hlen : pat.length ≤ rep.length) :
    ∀ (n : Nat) (s : List Char), s.length ≤ n →
      s.length ≤ (pyReplace pat rep s).length := by
  intro n
  induction n with
  | zero =>
    intro s hs
    have : s = [] := List.length_eq_zero.mp (Nat.le_zero.mp hs)
    subst this
    rw [pyReplace_nil rep hp]
  | succ n ih =>
    intro s hs
    rcases pyReplace_cases pat rep hp s.length s le_rfl with h0 | ⟨A, B, hAB, _, heq⟩
    · rw [pyReplace_no_occ rep hp s h0]
    · have hplen : 0 < pat.length := List.length_pos.mpr hp
      have hslen : s.length = A.length + pat.length + B.length := by
        rw [hAB]; simp [List.length_append]; omega
      have hBlen : B.length ≤ n := by omega
      have hB := ih B hBlen
      rw [heq]
      simp only [List.length_append]
      omega

theorem replace_at {pat : List Char} (rep : List Char) (hp : pat ≠ []) :
    ∀ (A B : List Char),
      (∀ p, p < A.length → ¬ pat <+: ((A ++ pat ++ B).drop p)) →
      countOccs pat B = 0 →
      pyReplace pat rep (A ++ pat ++ B) = A ++ rep ++ B := by
  intro A
  induction A with
  | nil =>
    intro B _ hB
    simp only [List.nil_append]
    rw [pyReplace_append_pat rep hp, pyReplace_no_occ rep hp B hB]
  | cons c A ih =>
    intro B hleft hB
    have h0 : ¬ pat <+: c :: (A ++ pat ++ B) := by
      have := hleft 0 (by simp)
      simpa using this
    have hshift : ∀ p, p < A.length → ¬ pat <+: ((A ++ pat ++ B).drop p) := by
      intro p hp'
      have := hleft (p + 1) (by simpa using Nat.succ_lt_succ hp')
      simpa using this
    show pyReplace pat rep (c :: (A ++ pat ++ B)) = c :: (A ++ rep ++ B)
    rw [pyReplace_cons_neg rep hp h0, ih B hshift hB]

theorem replace_unique {pat : List Char} (rep : List Char) (hp : pat ≠ [])
    (hS : sideOK pat pat = true) (hT : tailOK pat pat = true)
    (hpp : countOccs pat pat = 1) (s : List Char) (h1 : countOccs pat s = 1) :
    ∃ A B, s = A ++ pat ++ B ∧ pyReplace pat rep s = A ++ rep ++ B ∧
      countOccs pat A = 0 ∧ countOccs pat B = 0 := by
  rcases pyReplace_cases pat rep hp s.length s le_rfl with h0 | ⟨A, B, hAB, hleft, heq⟩
  · omega
  · have hA : countOccs pat A = 0 := by
      apply countOccs_zero_of_leftmost hp A (pat ++ B)
      intro p hp'
      rw [← List.append_assoc, ← hAB]
      exact hleft p hp'
    have hcount : countOccs pat s = countOccs pat A + countOccs pat pat + countOccs pat B := by
      rw [hAB]
      exact count_around hp hS hT A B
    have hB : countOccs pat B = 0 := by omega
    exact ⟨A, B, hAB, by rw [heq, pyReplace_no_occ rep hp B hB], hA, hB⟩

/-! ### Decidable facts about the four concrete literals

None of the literals is empty, none has a nonempty border against any other
(so occurrences can never straddle an inserted block), and each contains
itself exactly once and the others not at all. -/

theorem lit1_ne : lit1 ≠ [] := by decide

theorem rep1_ne : rep1 ≠ [] := by decide

theorem lit2_ne : lit2 ≠ [] := by decide

theorem rep2_ne : rep2 ≠ [] := by decide

theorem side_l1_l1 : sideOK lit1 lit1 = true := by decide

theorem tail_l1_l1 : tailOK lit1 lit1 = true := by decide

theorem side_l1_r1 : sideOK lit1 rep1 = true := by decide

theorem tail_l1_r1 : tailOK lit1 rep1 = true := by decide

theorem side_l1_l2 : sideOK lit1 lit2 = true := by decide

theorem tail_l1_l2 : tailOK lit1 lit2 = true := by decide

theorem side_l1_r2 : sideOK lit1 rep2 = true := by decide

theorem tail_l1_r2 : tailOK lit1 rep2 = true := by decide

theorem side_r1_r1 : sideOK rep1 rep1 = true := by decide

theorem tail_r1_r1 : tailOK rep1 rep1 = true := by decide

theorem side_r1_l2 : sideOK rep1 lit2 = true := by decide

theorem tail_r1_l2 : tailOK rep1 lit2 = true := by decide

theorem side_r1_r2 : sideOK rep1 rep2 = true := by decide

theorem tail_r1_r2 : tailOK rep1 rep2 = true := by decide

theorem side_l2_l1 : sideOK lit2 lit1 = true := by decide

theorem tail_l2_l1 : tailOK lit2 lit1 = true := by decide

theorem side_l2_r1 : sideOK lit2 rep1 = true := by decide

theorem tail_l2_r1 : tailOK lit2 rep1 = true := by decide

theorem side_l2_l2 : sideOK lit2 lit2 = true := by decide

theorem tail_l2_l2 : tailOK lit2 lit2 = true := by decide

theorem side_l2_r2 : sideOK lit2 rep2 = true := by decide

theorem tail_l2_r2 : tailOK lit2 rep2 = true := by decide

theorem side_r2_l1 : sideOK rep2 lit1 = true := by decide

theorem tail_r2_l1 : tailOK rep2 lit1 = true := by decide

theorem side_r2_r1 : sideOK rep2 rep1 = true := by decide

theorem tail_r2_r1 : tailOK rep2 rep1 = true := by decide

theorem side_r2_r2 : sideOK rep2 rep2 = true := by decide

theorem tail_r2_r2 : tailOK rep2 rep2 = true := by decide

theorem cnt_l1_l1 : countOccs lit1 lit1 = 1 := by decide

theorem cnt_r1_r1 : countOccs rep1 rep1 = 1 := by decide

theorem cnt_l2_l2 : countOccs lit2 lit2 = 1 := by decide

theorem cnt_r2_r2 : countOccs rep2 rep2 = 1 := by decide

theorem cnt_l1_r1 : countOccs lit1 rep1 = 0 := by decide

theorem cnt_l1_l2 : countOccs lit1 lit2 = 0 := by decide

theorem cnt_l1_r2 : countOccs lit1 rep2 = 0 := by decide

theorem cnt_r1_l2 : countOccs rep1 lit2 = 0 := by decide

theorem cnt_r1_r2 : countOccs rep1 rep2 = 0 := by decide

theorem cnt_l2_l1 : countOccs lit2 lit1 = 0 := by decide

theorem cnt_l2_r1 : countOccs lit2 rep1 = 0 := by decide

theorem cnt_l2_r2 : countOccs lit2 rep2 = 0 := by decide

theorem cnt_r2_l1 : countOccs rep2 lit1 = 0 := by decide

theorem cnt_r2_r1 : countOccs rep2 rep1 = 0 := by decide

/-! ### Idempotence of the whole patch

The first pass removes every occurrence of `lit1` and can create none
(`lit1` does not overlap `rep1`); the second pass removes every occurrence of
`lit2` and creates neither literal.  A patched text therefore contains
neither search literal, and a second run is two no-op passes. -/

theorem patch_countOccs_lit1 (s : List Char) : countOccs lit1 (patch s) = 0 := by
  have e1a : countOccs lit1 (pyReplace lit1 rep1 s) = 0 :=
    countOccs_pyReplace_self rep1 lit1_ne side_l1_r1 tail_l1_r1 cnt_l1_r1 s.length s le_rfl
  show countOccs lit1 (pyReplace lit2 rep2 (pyReplace lit1 rep1 s)) = 0
  exact Eq.trans
    (countOccs_pyReplace rep2 lit1_ne lit2_ne side_l1_l2 side_l1_r2 tail_l1_l2 tail_l1_r2
      (by rw [cnt_l1_l2, cnt_l1_r2]) (pyReplace lit1 rep1 s).length _ le_rfl)
    e1a

theorem patch_countOccs_lit2 (s : List Char) : countOccs lit2 (patch s) = 0 := by
  show countOccs lit2 (pyReplace lit2 rep2 (pyReplace lit1 rep1 s)) = 0
  exact countOccs_pyReplace_self rep2 lit2_ne side_l2_r2 tail_l2_r2 cnt_l2_r2
    (pyReplace lit1 rep1 s).length _ le_rfl

theorem patch_idem (s : List Char) : patch (patch s) = patch s := by
  show pyReplace lit2 rep2 (pyReplace lit1 rep1 (patch s)) = patch s
  rw [pyReplace_no_occ rep1 lit1_ne _ (patch_countOccs_lit1 s),
    pyReplace_no_occ rep2 lit2_ne _ (patch_countOccs_lit2 s)]

/-! ### Auxiliary concrete lines for the C6 scenario -/

/-- the `URLSearchParams` line of the C6 scenario, with its four-space indent. -/
def spLine : List Char :=
  "    const searchParams = new URLSearchParams(searchConfig);".toList

/-- the line the C6 scenario expects the patcher to insert. -/
def insLine : List Char :=
  "const searchConfig = getSearchConfig();".toList

/-! ### The claims -/

/-- C1: for every input text, the program's transformation equals applying the
two replacement rules in fixed order (import rule first, usage rule second,
the second unconditionally), where each step replaces every non-overlapping
literal occurrence of its search string and is a no-op when the search string
is absent. -/
theorem claim1 (s : List Char) :
    patch s = applyRules s ∧
    patch s = pyReplace lit2 rep2 (pyReplace lit1 rep1 s) ∧
    ∀ (pat rep t : List Char), ¬ pat <:+: t → pyReplace pat rep t = t := by
  refine ⟨rfl, rfl, ?_⟩
  intro pat rep t h
  have hp : pat ≠ [] := by
    intro hnil
    subst hnil
    exact h List.nil_infix
  apply pyReplace_no_occ rep hp
  by_contra hne
  exact h ((infix_iff_countOccs_pos pat t).mpr (Nat.pos_of_ne_zero hne))

theorem claim1_witness :
    patch [] = applyRules [] ∧ pyReplace lit1 rep1 ("x".toList) = "x".toList :=
  ⟨(claim1 []).1, (claim1 []).2.2 lit1 rep1 ("x".toList) (by decide)⟩

/-- C2 as frozen is false: when the replacement literal already occurs in the
input, the patched file can contain it more than once.  With input
`rep1 ++ lit1` the input holds `lit1` exactly once, yet the output holds
`rep1` twice. -/
theorem claim2_counterexample :
    countOccs lit1 (rep1 ++ lit1) = 1 ∧ countOccs rep1 (patch (rep1 ++ lit1)) = 2 := by
  decide

/-- C2 amended: for every initial content that contains the first search
literal exactly once and does not already contain the first replacement
literal, the patched content contains the first replacement literal exactly
once and the first search literal not at all. -/
theorem claim2 (s : List Char) (h1 : countOccs lit1 s = 1)
    (h0 : countOccs rep1 s = 0) :
    countOccs rep1 (patch s) = 1 ∧ countOccs lit1 (patch s) = 0 := by
  obtain ⟨A, B, hAB, heq, hA, hB⟩ :=
    replace_unique rep1 lit1_ne side_l1_l1 tail_l1_l1 cnt_l1_l1 s h1
  have hsr : countOccs rep1 s = countOccs rep1 (A ++ (lit1 ++ B)) := by
    rw [hAB, List.append_assoc]
  have h_rA : countOccs rep1 A = 0 := by
    have hle := countOccs_le_append_left rep1_ne A (lit1 ++ B)
    omega
  have h_rB : countOccs rep1 B = 0 := by
    have hle1 := countOccs_le_append_right rep1 lit1 B
    have hle2 := countOccs_le_append_right rep1 A (lit1 ++ B)
    omega
  have step1r : countOccs rep1 (pyReplace lit1 rep1 s) = 1 := by
    rw [heq, count_around rep1_ne side_r1_r1 tail_r1_r1 A B, h_rA, h_rB, cnt_r1_r1]
  have step1l : countOccs lit1 (pyReplace lit1 rep1 s) = 0 := by
    rw [heq, count_around lit1_ne side_l1_r1 tail_l1_r1 A B, hA, hB, cnt_l1_r1]
  constructor
  · show countOccs rep1 (pyReplace lit2 rep2 (pyReplace lit1 rep1 s)) = 1
    exact Eq.trans
      (countOccs_pyReplace rep2 rep1_ne lit2_ne side_r1_l2 side_r1_r2 tail_r1_l2 tail_r1_r2
        (by rw [cnt_r1_l2, cnt_r1_r2]) (pyReplace lit1 rep1 s).length _ le_rfl)
      step1r
  · show countOccs lit1 (pyReplace lit2 rep2 (pyReplace lit1 rep1 s)) = 0
    exact Eq.trans
      (countOccs_pyReplace rep2 lit1_ne lit2_ne side_l1_l2 side_l1_r2 tail_l1_l2 tail_l1_r2
        (by rw [cnt_l1_l2, cnt_l1_r2]) (pyReplace lit1 rep1 s).length _ le_rfl)
      step1l

theorem claim2_witness :
    countOccs lit1 lit1 = 1 ∧ countOccs rep1 lit1 = 0 ∧
      (countOccs rep1 (patch lit1) = 1 ∧ countOccs lit1 (patch lit1) = 0) :=
  ⟨by decide, by decide, claim2 lit1 (by decide) (by decide)⟩

/-- C3 as frozen is false: with input `rep2 ++ lit2` the input holds `lit2`
exactly once, yet the output holds `rep2` twice. -/
theorem claim3_counterexample :
    countOccs lit2 (rep2 ++ lit2) = 1 ∧ countOccs rep2 (patch (rep2 ++ lit2)) = 2 := by
  decide

/-- C3 amended: for every initial content that contains the second search
literal exactly once and does not already contain the second replacement
literal, the patched content contains the second replacement literal exactly
once. -/
theorem claim3 (s : List Char) (h1 : countOccs lit2 s = 1)
    (h0 : countOccs rep2 s = 0) :
    countOccs rep2 (patch s) = 1 := by
  have s1_2 : countOccs lit2 (pyReplace lit1 rep1 s) = 1 :=
    Eq.trans
      (countOccs_pyReplace rep1 lit2_ne lit1_ne side_l2_l1 side_l2_r1 tail_l2_l1 tail_l2_r1
        (by rw [cnt_l2_l1, cnt_l2_r1]) s.length s le_rfl)
      h1
  have s1_r : countOccs rep2 (pyReplace lit1 rep1 s) = 0 :=
    Eq.trans
      (countOccs_pyReplace rep1 rep2_ne lit1_ne side_r2_l1 side_r2_r1 tail_r2_l1 tail_r2_r1
        (by rw [cnt_r2_l1, cnt_r2_r1]) s.length s le_rfl)
      h0
  obtain ⟨A, B, hAB, heq, hA, hB⟩ :=
    replace_unique rep2 lit2_ne side_l2_l2 tail_l2_l2 cnt_l2_l2 (pyReplace lit1 rep1 s) s1_2
  have hsr : countOccs rep2 (pyReplace lit1 rep1 s) = countOccs rep2 (A ++ (lit2 ++ B)) := by
    rw [hAB, List.append_assoc]
  have h_rA : countOccs rep2 A = 0 := by
    have hle := countOccs_le_append_left rep2_ne A (lit2 ++ B)
    omega
  have h_rB : countOccs rep2 B = 0 := by
    have hle1 := countOccs_le_append_right rep2 lit2 B
    have hle2 := countOccs_le_append_right rep2 A (lit2 ++ B)
    omega
  show countOccs rep2 (pyReplace lit2 rep2 (pyReplace lit1 rep1 s)) = 1
  rw [heq, count_around rep2_ne side_r2_r2 tail_r2_r2 A B, h_rA, h_rB, cnt_r2_r2]

theorem claim3_witness :
    countOccs lit2 lit2 = 1 ∧ countOccs rep2 lit2 = 0 ∧
      countOccs rep2 (patch lit2) = 1 :=
  ⟨by decide, by decide, claim3 lit2 (by decide) (by decide)⟩

/-- C4: when neither search literal is present, the run rewrites the file
with byte-for-byte identical content and still prints the single success
line (and exits normally). -/
theorem claim4 (s : List Char) (h1 : ¬ lit1 <:+: s) (h2 : ¬ lit2 <:+: s) :
    patch s = s ∧ runPatcher (some s) = ⟨some s, [successMsg], true⟩ := by
  have c1 : countOccs lit1 s = 0 := by
    by_contra hne
    exact h1 ((infix_iff_countOccs_pos lit1 s).mpr (Nat.pos_of_ne_zero hne))
  have c2 : countOccs lit2 s = 0 := by
    by_contra hne
    exact h2 ((infix_iff_countOccs_pos lit2 s).mpr (Nat.pos_of_ne_zero hne))
  have hps : patch s = s := by
    show pyReplace lit2 rep2 (pyReplace lit1 rep1 s) = s
    rw [pyReplace_no_occ rep1 lit1_ne s c1, pyReplace_no_occ rep2 lit2_ne s c2]
  exact ⟨hps, by simp [runPatcher, hps]⟩

theorem claim4_witness :
    ¬ lit1 <:+: ("hello".toList) ∧ ¬ lit2 <:+: ("hello".toList) ∧
      (patch ("hello".toList) = "hello".toList ∧
        runPatcher (some ("hello".toList)) = ⟨some ("hello".toList), [successMsg], true⟩) :=
  ⟨by decide, by decide, claim4 ("hello".toList) (by decide) (by decide)⟩

/-- C5: on content containing both search literals, running the patcher twice
gives the same content as running it once; the second run's two replacement
steps are no-ops on the already-patched text. -/
theorem claim5 (s : List Char) (_h1 : 0 < countOccs lit1 s)
    (_h2 : 0 < countOccs lit2 s) :
    patch (patch s) = patch s :=
  patch_idem s

theorem claim5_witness :
    0 < countOccs lit1 (lit1 ++ "\n".toList ++ lit2) ∧
    0 < countOccs lit2 (lit1 ++ "\n".toList ++ lit2) ∧
    patch (patch (lit1 ++ "\n".toList ++ lit2)) = patch (lit1 ++ "\n".toList ++ lit2) :=
  ⟨by decide, by decide, claim5 (lit1 ++ "\n".toList ++ lit2) (by decide) (by decide)⟩

/-- C6 as frozen is false: with arbitrary intervening text the usage block
need not occur, and then no `const searchConfig = getSearchConfig();` line is
inserted.  With intervening text `\nx\n` the import line is replaced but the
output contains no inserted line at all. -/
theorem claim6_counterexample :
    patch (lit1 ++ "\nx\n".toList ++ spLine) = rep1 ++ "\nx\n".toList ++ spLine ∧
    countOccs insLine (patch (lit1 ++ "\nx\n".toList ++ spLine)) = 0 := by
  decide

/-- C6 amended: if the content is the import line, then intervening text,
then the full usage block (comment lines plus `URLSearchParams` line), with
each search literal occurring exactly once in the whole content, the patcher
replaces the import line by the new import line and the usage block by the
block with the `const searchConfig = getSearchConfig();` line inserted,
leaving the intervening text unchanged. -/
theorem claim6 (m : List Char)
    (h1 : countOccs lit1 (lit1 ++ m ++ lit2) = 1)
    (h2 : countOccs lit2 (lit1 ++ m ++ lit2) = 1) :
    patch (lit1 ++ m ++ lit2) = rep1 ++ m ++ rep2 := by
  have hassoc : lit1 ++ m ++ lit2 = lit1 ++ (m ++ lit2) := by
    rw [List.append_assoc]
  have hml2 : countOccs lit1 (m ++ lit2) = 0 := by
    have h := count_around lit1_ne side_l1_l1 tail_l1_l1 [] (m ++ lit2)
    rw [List.nil_append, ← hassoc, h1, countOccs_nil lit1_ne, cnt_l1_l1] at h
    omega
  have step1 : pyReplace lit1 rep1 (lit1 ++ m ++ lit2) = rep1 ++ (m ++ lit2) := by
    rw [hassoc, pyReplace_append_pat rep1 lit1_ne, pyReplace_no_occ rep1 lit1_ne _ hml2]
  have hc2 : countOccs lit2 (rep1 ++ (m ++ lit2)) = 1 := by
    rw [countOccs_append_tail lit2_ne tail_l2_r1 (m ++ lit2), cnt_l2_r1]
    have h := countOccs_append_tail lit2_ne tail_l2_l1 (m ++ lit2)
    rw [← hassoc, h2, cnt_l2_l1] at h
    omega
  have hTfull : rep1 ++ (m ++ lit2) = (rep1 ++ m) ++ lit2 ++ [] := by
    simp [List.append_assoc]
  have hAleft : ∀ p, p < (rep1 ++ m).length →
      ¬ lit2 <+: (((rep1 ++ m) ++ lit2 ++ []).drop p) := by
    intro p hp hpre
    have hthere : lit2 <+: (((rep1 ++ m) ++ lit2 ++ []).drop (rep1 ++ m).length) := by
      rw [List.append_nil, List.drop_left]
    have h2le := two_le_countOccs lit2_ne ((rep1 ++ m) ++ lit2 ++ [])
      p (rep1 ++ m).length hp hpre hthere
    have hone : countOccs lit2 ((rep1 ++ m) ++ lit2 ++ []) = 1 := by
      rw [← hTfull]
      exact hc2
    omega
  have step2 : pyReplace lit2 rep2 ((rep1 ++ m) ++ lit2 ++ []) = (rep1 ++ m) ++ rep2 ++ [] :=
    replace_at rep2 lit2_ne (rep1 ++ m) [] hAleft (countOccs_nil lit2_ne)
  show pyReplace lit2 rep2 (pyReplace lit1 rep1 (lit1 ++ m ++ lit2)) = rep1 ++ m ++ rep2
  rw [step1, hTfull, step2]
  simp [List.append_assoc]

theorem claim6_witness :
    countOccs lit1 (lit1 ++ "\n\n".toList ++ lit2) = 1 ∧
    countOccs lit2 (lit1 ++ "\n\n".toList ++ lit2) = 1 ∧
    patch (lit1 ++ "\n\n".toList ++ lit2) = rep1 ++ "\n\n".toList ++ rep2 :=
  ⟨by decide, by decide, claim6 ("\n\n".toList) (by decide) (by decide)⟩

/-- C7: when the target file does not exist, the read step fails, the error
is uncaught, the run exits abnormally (non-zero status), nothing is printed,
and no file content is written. -/
theorem claim7 :
    (runPatcher none).written = none ∧ (runPatcher none).stdout = [] ∧
      (runPatcher none).exitOk = false :=
  ⟨rfl, rfl, rfl⟩

/-- C8 as frozen is false: no input text at all distinguishes one application
of the transformation from two, because a patched text never contains either
search literal again. -/
theorem claim8_counterexample : ¬ ∃ s : List Char, patch (patch s) ≠ patch s :=
  fun h => h.elim fun s hs => hs (patch_idem s)

/-- C8 amended: re-running the patcher is idempotent on every initial file
content — the two-step transformation applied twice always produces the same
text as applying it once. -/
theorem claim8 (s : List Char) : patch (patch s) = patch s :=
  patch_idem s

/-- C9: the run is deterministic and consults nothing beyond the target
file's content: for the same content, any two runs — whatever the
command-line arguments or environment variables — give the same written
content, the same stdout, and the same exit status. -/
theorem claim9 (file : Option (List Char)) (argv1 argv2 : List (List Char))
    (env1 env2 : List (List Char × List Char)) :
    runFull argv1 env1 file = runFull argv2 env2 file := rfl

/-- C10: the written text is never shorter than the input text, because each
replacement literal is at least as long as its search literal. -/
theorem claim10 (s : List Char) :
    s.length ≤ (patch s).length ∧
    lit1.length ≤ rep1.length ∧ lit2.length ≤ rep2.length := by
  refine ⟨?_, by decide, by decide⟩
  have h1 := length_le_pyReplace rep1 lit1_ne (by decide) s.length s le_rfl
  have h2 := length_le_pyReplace rep2 lit2_ne (by decide)
    (pyReplace lit1 rep1 s).length (pyReplace lit1 rep1 s) le_rfl
  exact le_trans h1 h2

end AutoPatch
